import Mathlib

/-!
Shallow embedding of `prepare_clang8_dataset.py`: a script that joins the
cLang-8 targets file with the raw Lang-8 corpus, optionally tokenizes the
resulting (source, target) pairs, and writes them to a TSV file.

File contents are modelled as lists of lines.  Raw-corpus lines are modelled
by the result of `json.loads` on each line (`none` for a line that raises
`JSONDecodeError`).  Python runtime errors that abort the run (ValueError,
TypeError, IndexError, KeyError, AttributeError) are modelled with `Except`.
-/

namespace Clang8

/-- A parsed JSON value, as produced by `json.loads`.  Numbers are restricted
to integers, which covers every number this script touches (document and
record ids). -/
inductive Json where
  | null : Json
  | bool (b : Bool) : Json
  | num (n : Int) : Json
  | str (s : String) : Json
  | arr (elems : List Json) : Json
  | obj (fields : List (String × Json)) : Json
  deriving Repr

/-- The Python exception kinds this script can raise. -/
inductive PyErr where
  | valueError
  | typeError
  | indexError
  | keyError
  | attributeError
  deriving Repr, DecidableEq

/-- Digits of a decimal literal to a number; `none` on the empty list or on a
non-digit character. -/
def digitsToNat (cs : List Char) : Option Nat :=
  match cs with
  | [] => none
  | _ =>
    cs.foldl
      (fun acc c =>
        match acc with
        | none => none
        | some n => if c.isDigit then some (n * 10 + (c.toNat - 48)) else none)
      (some 0)

/-- Strip leading and trailing whitespace, as Python `int(s)` does before
parsing. -/
def pyStrip (cs : List Char) : List Char :=
  ((cs.dropWhile Char.isWhitespace).reverse.dropWhile Char.isWhitespace).reverse

/-- Python `int(s)` on a string, for the strings occurring in this script:
surrounding whitespace is stripped, then an optional sign followed by one or
more ASCII digits.  `none` models the `ValueError` raised otherwise.
(Underscore digit grouping and non-ASCII digits are not modelled.) -/
def pyParseInt (s : String) : Option Int :=
  match pyStrip s.data with
  | '-' :: rest => (digitsToNat rest).map (fun n => -(n : Int))
  | '+' :: rest => (digitsToNat rest).map (fun n => (n : Int))
  | rest => (digitsToNat rest).map (fun n => (n : Int))

/-- Python `line.split('\t')`: the maximal tab-free runs of the line, empty
runs included, so a line with k tabs yields exactly k+1 fields. -/
def splitFields : List Char → List String
  | [] => [""]
  | c :: rest =>
    let fields := splitFields rest
    if c = '\t' then "" :: fields
    else
      match fields with
      | [] => [String.mk [c]]
      | f :: fs => String.mk (c :: f.data) :: fs

/-- One line of the targets file:
`journal_id, sentence_id, sentence_number, _, target = line.split('\t')`
followed by the three `int(...)` conversions.  `none` models the
`ValueError` raised when the line does not have exactly five tab-separated
fields or when one of the first three fields is not an integer literal. -/
def parseTargetLine (line : String) : Option (Int × Int × Int × String) :=
  match splitFields line.data with
  | [journal_id, sentence_id, sentence_number, _, target] =>
    match pyParseInt journal_id, pyParseInt sentence_id,
        pyParseInt sentence_number with
    | some j, some s, some n => some (j, s, n, target)
    | _, _, _ => none
  | _ => none

/-- `defaultdict(list)` with `d[k].append(v)`: the dict is an insertion-ordered
association list; appending to an existing key extends its list in place,
a fresh key is inserted at the end with a singleton list. -/
def mapAppend {K V : Type} [BEq K] :
    List (K × List V) → K → V → List (K × List V)
  | [], k, v => [(k, [v])]
  | (k', vs) :: rest, k, v =>
    if k' == k then (k', vs ++ [v]) :: rest
    else (k', vs) :: mapAppend rest k v

/-- `dict.get(k, default)` on an association list (without the default). -/
def alistGet {K V : Type} [BEq K] (m : List (K × V)) (k : K) : Option V :=
  (m.find? (fun p => p.1 == k)).map (fun p => p.2)

/-- The target index: `(journal_id, sentence_id)` mapped to the list of
`(sentence_number, target)` entries, in file order within each key. -/
abbrev TargetIndex := List ((Int × Int) × List (Int × String))

/-- The loop body of `_read_clang8_targets`: fold the lines into the
`defaultdict`; any malformed line raises (returns `none`). -/
def buildIndex : List String → TargetIndex → Option TargetIndex
  | [], m => some m
  | line :: rest, m =>
    match parseTargetLine line with
    | none => none
    | some (j, s, n, t) => buildIndex rest (mapAppend m (j, s) (n, t))

/-- `num_targets = sum(len(targets) for targets in ids_2_targets.values())`. -/
def numTargets (m : TargetIndex) : Nat :=
  (m.map (fun p => p.2.length)).sum

/-- `_read_clang8_targets`, on the list of lines of the targets file
(`f.read().splitlines()`): returns the index together with the total entry
count, or `none` when some line raises. -/
def read_clang8_targets (lines : List String) :
    Option (TargetIndex × Nat) :=
  (buildIndex lines []).map (fun m => (m, numTargets m))

/-- `_yield_lang8_raw_dicts`, on the per-line results of `json.loads`
(`none` = `JSONDecodeError`): yields the successfully parsed rows in line
order, silently skipping failures, and returns the count of parsed rows
reported after exhaustion. -/
def yield_lang8_raw_dicts : List (Option Json) → List Json × Nat
  | [] => ([], 0)
  | none :: rest => yield_lang8_raw_dicts rest
  | some row :: rest =>
    let (rows, n) := yield_lang8_raw_dicts rest
    (row :: rows, n + 1)

/-- Python iteration over a parsed JSON value, as used by the destructuring
`for journal_id, sentence_id, *_, sources, _ in ...`: a list yields its
elements, a dict yields its keys (insertion order), a string yields its
characters as one-character strings; numbers, booleans and `null` are not
iterable (`TypeError`). -/
def pyIterate : Json → Option (List Json)
  | .arr elems => some elems
  | .obj fields => some (fields.map (fun f => Json.str f.1))
  | .str s => some (s.data.map (fun c => Json.str (String.mk [c])))
  | _ => none

/-- The destructuring `journal_id, sentence_id, *_, sources, _ = row`:
returns (first, second, second-to-last) of the iterated items.  Fails with
`TypeError` when `row` is not iterable and with `ValueError` when it yields
fewer than four items. -/
def unpackRawRow (row : Json) : Except PyErr (Json × Json × Json) :=
  match pyIterate row with
  | none => .error .typeError
  | some items =>
    if 4 ≤ items.length then
      match items.get? 0, items.get? 1, items.get? (items.length - 2) with
      | some a, some b, some srcs => .ok (a, b, srcs)
      | _, _, _ => .error .valueError
    else .error .valueError

/-- Python `int(x)` on a value taken from parsed JSON: a number is already an
integer (numbers are modelled as integers here), a boolean is 0 or 1, a
string is parsed (`ValueError` on failure), anything else is a
`TypeError`. -/
def pyIntOfJson : Json → Except PyErr Int
  | .num n => .ok n
  | .bool b => .ok (if b then 1 else 0)
  | .str s =>
    match pyParseInt s with
    | some n => .ok n
    | none => .error .valueError
  | _ => .error .typeError

/-- Python sequence indexing `xs[i]` with negative indices counting from the
end; `none` models `IndexError`. -/
def pyListIndex {α : Type} (xs : List α) (i : Int) : Option α :=
  if 0 ≤ i then xs.get? i.toNat
  else if i.natAbs ≤ xs.length then xs.get? (xs.length - i.natAbs)
  else none

/-- Python `sources[sentence_number]` on a parsed JSON value: list and string
indexing support negative indices and raise `IndexError` out of range; an
integer subscript on a dict is a `KeyError` (its keys are strings); other
values are not subscriptable (`TypeError`). -/
def pyGetItem (v : Json) (i : Int) : Except PyErr Json :=
  match v with
  | .arr elems =>
    match pyListIndex elems i with
    | some x => .ok x
    | none => .error .indexError
  | .str s =>
    match pyListIndex s.data i with
    | some c => .ok (Json.str (String.mk [c]))
    | none => .error .indexError
  | .obj _ => .error .keyError
  | _ => .error .typeError

/-- The inner loop `for sentence_number, target in ids_2_targets.get(...)`:
emit `(sources[sentence_number], target)` for each entry, in list order; the
first failing subscript aborts. -/
def emit_targets (sources : Json) :
    List (Int × String) → Except PyErr (List (Json × String))
  | [] => .ok []
  | (n, t) :: rest => do
    let src ← pyGetItem sources n
    let rest' ← emit_targets sources rest
    pure ((src, t) :: rest')

/-- The body of the raw-record loop in `_yield_clang8_source_target_pairs`
for one row: destructure the row, convert the two ids, look the key up in
the index (absent key: no matches), and emit `(sources[sentence_number],
target)` for each entry of the key's list, in list order. -/
def emit_for_row (ids_2_targets : TargetIndex) (row : Json) :
    Except PyErr (List (Json × String)) := do
  let (a, b, sources) ← unpackRawRow row
  let journal_id ← pyIntOfJson a
  let sentence_id ← pyIntOfJson b
  emit_targets sources
    ((alistGet ids_2_targets (journal_id, sentence_id)).getD [])

/-- The raw-record loop of `_yield_clang8_source_target_pairs`: rows are
processed in stream order, and each row's matches are emitted before the
next row is read; the first raised error aborts the run. -/
def join_rows (ids_2_targets : TargetIndex) :
    List Json → Except PyErr (List (Json × String))
  | [] => .ok []
  | row :: rest => do
    let ps ← emit_for_row ids_2_targets row
    let rest' ← join_rows ids_2_targets rest
    pure (ps ++ rest')

/-- `_yield_clang8_source_target_pairs`: build the target index from the
targets file, stream the raw rows, and join. -/
def yield_clang8_source_target_pairs (targetLines : List String)
    (rawLines : List (Option Json)) : Except PyErr (List (Json × String)) :=
  match read_clang8_targets targetLines with
  | none => .error .valueError
  | some (ids_2_targets, _num_targets) =>
    join_rows ids_2_targets (yield_lang8_raw_dicts rawLines).1

/-- Python `text.replace(old, new)` for the single-character patterns used in
`_clean_spaces`: every occurrence of the character is replaced. -/
def replaceChar (text : String) (old new : Char) : String :=
  String.mk (text.data.map (fun c => if c = old then new else c))

/-- `_clean_spaces`: replaces tabs, newlines and carriage returns by
spaces. -/
def clean_spaces (text : String) : String :=
  replaceChar (replaceChar (replaceChar text '\t' ' ') '\n' ' ') '\r' ' '

/-- One output line of `_write_source_target_pairs_to_tsv`:
`f'{source}\t{target}\n'` after cleaning both texts. -/
def tsvLine (source target : String) : String :=
  clean_spaces source ++ "\t" ++ clean_spaces target ++ "\n"

/-- `_write_source_target_pairs_to_tsv`: the text written to the output
file. -/
def write_source_target_pairs_to_tsv (pairs : List (String × String)) :
    String :=
  String.join (pairs.map (fun p => tsvLine p.1 p.2))

/-- `str(x).replace` is only available on strings: `_clean_spaces` (and
spaCy's `nlp.pipe`) require each text to be a `str`; a non-string source
raises `AttributeError` in `_clean_spaces`. -/
def pyStrOfJson : Json → Except PyErr String
  | .str s => .ok s
  | _ => .error .attributeError

/-- `_tokenize` with the spaCy pipeline abstracted to a segmentation
function `seg` (a `Doc` is its list of token texts; `nlp.pipe` maps `seg`
over a column in order, batching being a throughput detail only): split the
materialized pair list into the source column and the target column, segment
both, zip back together and space-join each token list. -/
def tokenize (seg : String → List String)
    (pairs : List (String × String)) : List (String × String) :=
  let source_docs := (pairs.map (fun p => p.1)).map seg
  let target_docs := (pairs.map (fun p => p.2)).map seg
  (source_docs.zip target_docs).map
    (fun st => (" ".intercalate st.1, " ".intercalate st.2))

/-- The untokenized pipeline from the two input files to the text of the
output file: join, then write each pair (cleaning requires string
sources). -/
def pipeline_untokenized (targetLines : List String)
    (rawLines : List (Option Json)) : Except PyErr String := do
  let pairs ← yield_clang8_source_target_pairs targetLines rawLines
  let strPairs ← pairs.mapM (fun p => do
    let s ← pyStrOfJson p.1
    pure (s, p.2))
  pure (write_source_target_pairs_to_tsv strPairs)

/-- The tokenizer-model resolution at the top of `_prepare_clang8`:
`en`, `de` and `ru` select the fixed spaCy models, anything else raises
`ValueError('Unsupported language: ...')`. -/
def resolve_model (language : String) : Except PyErr String :=
  if language = "en" then .ok "en_core_web_sm"
  else if language = "de" then .ok "de_core_news_sm"
  else if language = "ru" then .ok "ru_core_news_sm"
  else .error .valueError

/-- `_prepare_clang8` with `tokenize_text=False`: the model is resolved
before any file is opened, so an unsupported language fails independently of
the file contents; otherwise the untokenized pipeline runs. -/
def prepare_clang8_untokenized (language : String)
    (targetLines : List String) (rawLines : List (Option Json)) :
    Except PyErr String :=
  match resolve_model language with
  | .error e => .error e
  | .ok _model => pipeline_untokenized targetLines rawLines

/-- The (journal_id, sentence_id) key contributed by a raw row, when its
destructuring and id conversions succeed. -/
def rowKey (row : Json) : Option (Int × Int) :=
  match unpackRawRow row with
  | .error _ => none
  | .ok (a, b, _) =>
    match pyIntOfJson a, pyIntOfJson b with
    | .ok j, .ok s => some (j, s)
    | _, _ => none

/-- The target entries a raw row matches: the index list under the row's
key, in builder (targets-file) order; an absent or unparsable key matches
nothing. -/
def rowMatches (ids_2_targets : TargetIndex) (row : Json) :
    List (Int × String) :=
  match rowKey row with
  | none => []
  | some k => (alistGet ids_2_targets k).getD []

/-- The source text a row yields at sentence position `n` (defaulting to
`null` where the subscript would raise; on a successful run it never
does). -/
def rowSource (row : Json) (n : Int) : Json :=
  match unpackRawRow row with
  | .error _ => .null
  | .ok (_, _, sources) => ((pyGetItem sources n).toOption).getD .null

/-- The keys of the successfully destructured raw rows, in stream order. -/
def rowKeys (rows : List Json) : List (Int × Int) :=
  rows.filterMap rowKey

/-- The number of target entries stored under a key of `m` that occurs in
`ks`. -/
def matchedTargetCount (m : TargetIndex) (ks : List (Int × Int)) : Nat :=
  ((m.filter (fun e => ks.contains e.1)).map (fun e => e.2.length)).sum

/-- The character-level effect of `_clean_spaces`: tab, newline and carriage
return become a single space, everything else is untouched. -/
def sanitizeChar (c : Char) : Char :=
  if c = '\t' ∨ c = '\n' ∨ c = '\r' then ' ' else c

theorem sanitizeChar_ne (c : Char) :
    sanitizeChar c ≠ '\t' ∧ sanitizeChar c ≠ '\n' ∧ sanitizeChar c ≠ '\r' := by
  unfold sanitizeChar
  split
  · exact ⟨by decide, by decide, by decide⟩
  · next h =>
    push_neg at h
    exact ⟨h.1, h.2.1, h.2.2⟩

theorem clean_spaces_data (s : String) :
    (clean_spaces s).data = s.data.map sanitizeChar := by
  have hfun : ∀ c : Char,
      (if (if (if c = '\t' then ' ' else c) = '\n' then ' '
            else if c = '\t' then ' ' else c) = '\r' then ' '
        else if (if c = '\t' then ' ' else c) = '\n' then ' '
            else if c = '\t' then ' ' else c) = sanitizeChar c := by
    intro c
    by_cases h1 : c = '\t'
    · subst h1; decide
    · by_cases h2 : c = '\n'
      · subst h2; decide
      · by_cases h3 : c = '\r'
        · subst h3; decide
        · simp [sanitizeChar, h1, h2, h3]
  have key : ∀ l : List Char,
      ((l.map (fun c => if c = '\t' then ' ' else c)).map
          (fun c => if c = '\n' then ' ' else c)).map
        (fun c => if c = '\r' then ' ' else c) = l.map sanitizeChar := by
    intro l
    induction l with
    | nil => rfl
    | cons c cs ih =>
      simp only [List.map_cons, ih, List.cons.injEq, and_true]
      exact hfun c
  exact key s.data

theorem count_map_sanitize_eq_zero (l : List Char) (ch : Char)
    (h : ∀ c : Char, sanitizeChar c ≠ ch) :
    (l.map sanitizeChar).count ch = 0 := by
  rw [List.count_eq_zero]
  intro hmem
  obtain ⟨c, _, hc⟩ := List.mem_map.mp hmem
  exact h c hc

theorem count_clean_spaces (s : String) :
    (clean_spaces s).data.count '\t' = 0 ∧
    (clean_spaces s).data.count '\n' = 0 ∧
    (clean_spaces s).data.count '\r' = 0 := by
  rw [clean_spaces_data]
  exact ⟨count_map_sanitize_eq_zero _ _ (fun c => (sanitizeChar_ne c).1),
    count_map_sanitize_eq_zero _ _ (fun c => (sanitizeChar_ne c).2.1),
    count_map_sanitize_eq_zero _ _ (fun c => (sanitizeChar_ne c).2.2)⟩

/-- C5.  Writer sanitization: `_clean_spaces` replaces every tab, newline and
carriage return of either text by a single space, the written line is the
sanitized source, one tab, the sanitized target and a newline, and
consequently every written line (whatever the input texts contained)
has exactly one tab, exactly one newline, and that newline is its last
character. -/
theorem writer_sanitizes_and_delimits (s t : String) :
    (clean_spaces s).data = s.data.map sanitizeChar ∧
    write_source_target_pairs_to_tsv [(s, t)] =
      clean_spaces s ++ "\t" ++ clean_spaces t ++ "\n" ∧
    (tsvLine s t).data.count '\t' = 1 ∧
    (tsvLine s t).data.count '\n' = 1 ∧
    (tsvLine s t).data.getLast? = some '\n' := by
  obtain ⟨hs1, hs2, _⟩ := count_clean_spaces s
  obtain ⟨ht1, ht2, _⟩ := count_clean_spaces t
  have hdata : (tsvLine s t).data =
      ((clean_spaces s).data ++ '\t' :: (clean_spaces t).data) ++ ['\n'] := by
    simp [tsvLine, String.data_append]
  refine ⟨clean_spaces_data s, ?_, ?_, ?_, ?_⟩
  · apply String.ext
    simp [write_source_target_pairs_to_tsv, String.join, tsvLine,
      String.data_append]
  · rw [hdata]
    simp [List.count_append, List.count_cons, hs1, ht1]
  · rw [hdata]
    simp [List.count_append, List.count_cons, hs2, ht2]
  · rw [hdata]
    exact List.getLast?_concat _

/-- C7.  The raw-corpus reader skips every line whose parse fails, without
raising and without counting it, yields exactly the successfully parsed
records in line order, and reports a count equal to the number of yielded
records. -/
theorem raw_reader_skips_silently_and_counts (lines : List (Option Json)) :
    yield_lang8_raw_dicts lines =
      (lines.filterMap id, (lines.filterMap id).length) := by
  induction lines with
  | nil => rfl
  | cons hd tl ih =>
    cases hd with
    | none => simpa [yield_lang8_raw_dicts] using ih
    | some row => simp [yield_lang8_raw_dicts, ih]

/-- C4.  Tokenization is arity- and order-preserving: for every segmentation
function and input pair list it emits exactly one output pair per input pair,
in the same order, the i-th output pair being the space-joined tokens of the
i-th source and the i-th target. -/
theorem tokenize_preserves_order_and_arity (seg : String → List String)
    (pairs : List (String × String)) :
    (tokenize seg pairs).length = pairs.length ∧
    ∀ i : Nat, (tokenize seg pairs)[i]? = (pairs[i]?).map
      (fun p => (" ".intercalate (seg p.1), " ".intercalate (seg p.2))) := by
  have h : tokenize seg pairs = pairs.map
      (fun p => (" ".intercalate (seg p.1), " ".intercalate (seg p.2))) := by
    unfold tokenize
    simp [List.map_map, List.zip_map', Function.comp]
  refine ⟨by simp [h], fun i => ?_⟩
  simp [h]

/-- C8.  Any language other than `en`, `de` and `ru` fails with the
unsupported-language `ValueError` before any file is read (the result does
not depend on the file contents), while the three supported codes resolve to
the fixed English, German and Russian spaCy models. -/
theorem unsupported_language_fails_early (language : String)
    (targetLines : List String) (rawLines : List (Option Json))
    (h1 : language ≠ "en") (h2 : language ≠ "de") (h3 : language ≠ "ru") :
    prepare_clang8_untokenized language targetLines rawLines =
      .error .valueError ∧
    resolve_model "en" = .ok "en_core_web_sm" ∧
    resolve_model "de" = .ok "de_core_news_sm" ∧
    resolve_model "ru" = .ok "ru_core_news_sm" := by
  refine ⟨?_, rfl, rfl, rfl⟩
  simp [prepare_clang8_untokenized, resolve_model, h1, h2, h3]

theorem unsupported_language_fails_early_witness :
    prepare_clang8_untokenized "fr" ["1\t2\t0\t-\tx"] [] =
      .error .valueError ∧
    resolve_model "en" = .ok "en_core_web_sm" ∧
    resolve_model "de" = .ok "de_core_news_sm" ∧
    resolve_model "ru" = .ok "ru_core_news_sm" :=
  unsupported_language_fails_early "fr" ["1\t2\t0\t-\tx"] []
    (by decide) (by decide) (by decide)

theorem except_bind_ok {α β : Type} (a : α) (f : α → Except PyErr β) :
    (Except.ok a >>= f) = f a := rfl

theorem except_bind_error {α β : Type} (e : PyErr) (f : α → Except PyErr β) :
    ((Except.error e : Except PyErr α) >>= f) = .error e := rfl

theorem except_pure {α : Type} (a : α) :
    (pure a : Except PyErr α) = .ok a := rfl

theorem emit_targets_eq (sources : Json) (ts : List (Int × String))
    (ps : List (Json × String)) (h : emit_targets sources ts = .ok ps) :
    ps = ts.map
      (fun nt => (((pyGetItem sources nt.1).toOption).getD .null, nt.2)) := by
  induction ts generalizing ps with
  | nil =>
    cases h
    rfl
  | cons nt rest ih =>
    obtain ⟨n, t⟩ := nt
    simp only [emit_targets] at h
    cases hg : pyGetItem sources n with
    | error e => simp [hg, except_bind_error] at h
    | ok src =>
      simp only [hg, except_bind_ok] at h
      cases hr : emit_targets sources rest with
      | error e => simp [hr, except_bind_error] at h
      | ok rs =>
        simp only [hr, except_bind_ok, except_pure, Except.ok.injEq] at h
        subst h
        simp [ih rs hr, hg, Except.toOption]

theorem emit_for_row_eq (m : TargetIndex) (row : Json)
    (ps : List (Json × String)) (h : emit_for_row m row = .ok ps) :
    (rowKey row).isSome ∧
    ps = (rowMatches m row).map (fun nt => (rowSource row nt.1, nt.2)) := by
  unfold emit_for_row at h
  cases hu : unpackRawRow row with
  | error e => simp [hu, except_bind_error] at h
  | ok abc =>
    obtain ⟨a, b, sources⟩ := abc
    simp only [hu, except_bind_ok] at h
    cases hj : pyIntOfJson a with
    | error e => simp [hj, except_bind_error] at h
    | ok j =>
      simp only [hj, except_bind_ok] at h
      cases hs : pyIntOfJson b with
      | error e => simp [hs, except_bind_error] at h
      | ok s =>
        simp only [hs, except_bind_ok] at h
        have hk : rowKey row = some (j, s) := by
          simp [rowKey, hu, hj, hs]
        refine ⟨by simp [hk], ?_⟩
        rw [emit_targets_eq sources _ ps h]
        simp only [rowMatches, hk]
        apply List.map_congr_left
        intro nt _
        simp [rowSource, hu]

theorem join_rows_eq (m : TargetIndex) (rows : List Json)
    (pairs : List (Json × String)) (h : join_rows m rows = .ok pairs) :
    pairs = (rows.map (fun row =>
      (rowMatches m row).map (fun nt => (rowSource row nt.1, nt.2)))).flatten ∧
    ∀ row ∈ rows, (rowKey row).isSome := by
  induction rows generalizing pairs with
  | nil =>
    cases h
    simp
  | cons row rest ih =>
    simp only [join_rows] at h
    cases he : emit_for_row m row with
    | error e => simp [he, except_bind_error] at h
    | ok ps =>
      simp only [he, except_bind_ok] at h
      cases hr : join_rows m rest with
      | error e => simp [hr, except_bind_error] at h
      | ok rest' =>
        simp only [hr, except_bind_ok, except_pure, Except.ok.injEq] at h
        subst h
        obtain ⟨hflat, hkeys⟩ := ih rest' hr
        obtain ⟨hk, hps⟩ := emit_for_row_eq m row ps he
        refine ⟨by simp [hps, hflat], ?_⟩
        intro r hmem
        rcases List.mem_cons.mp hmem with hcase | hcase
        · subst hcase; exact hk
        · exact hkeys r hcase

/-- C3.  Output ordering of the join: on a successful run, the emitted pair
sequence is the concatenation, over the raw records in stream order, of each
record's matched target-entry list mapped in the order the builder appended
the entries for that key (the order of the targets file), each entry paired
with the sentence at its position — no reordering, in particular no sorting
by sentence position. -/
theorem join_emits_in_stream_then_file_order (ids_2_targets : TargetIndex)
    (rows : List Json) (pairs : List (Json × String))
    (h : join_rows ids_2_targets rows = .ok pairs) :
    pairs = (rows.map (fun row =>
      (rowMatches ids_2_targets row).map
        (fun nt => (rowSource row nt.1, nt.2)))).flatten :=
  (join_rows_eq ids_2_targets rows pairs h).1

theorem join_emits_in_stream_then_file_order_witness :
    [((Json.str "s1"), "t1"), ((Json.str "s0"), "t0")] =
      ([Json.arr [Json.num 1, Json.num 2,
          Json.arr [Json.str "s0", Json.str "s1"], Json.null]].map (fun row =>
        (rowMatches [((1, 2), [(1, "t1"), (0, "t0")])] row).map
          (fun nt => (rowSource row nt.1, nt.2)))).flatten :=
  join_emits_in_stream_then_file_order
    [((1, 2), [(1, "t1"), (0, "t0")])]
    [Json.arr [Json.num 1, Json.num 2,
      Json.arr [Json.str "s0", Json.str "s1"], Json.null]]
    [((Json.str "s1"), "t1"), ((Json.str "s0"), "t0")] rfl

theorem parseTargetLine_none_of_arity (line : String)
    (h : (splitFields line.data).length ≠ 5) : parseTargetLine line = none := by
  unfold parseTargetLine
  split
  · next heq => exact absurd (by rw [heq]; rfl) h
  · rfl

theorem buildIndex_none_of_bad_line :
    ∀ (lines : List String) (m : TargetIndex),
      (∃ line ∈ lines, parseTargetLine line = none) →
      buildIndex lines m = none := by
  intro lines
  induction lines with
  | nil =>
    intro m h
    obtain ⟨l, hl, _⟩ := h
    cases hl
  | cons hd tl ih =>
    intro m h
    obtain ⟨l, hl, hp⟩ := h
    rcases List.mem_cons.mp hl with hcase | hcase
    · subst hcase
      simp [buildIndex, hp]
    · cases hp2 : parseTargetLine hd with
      | none => simp [buildIndex, hp2]
      | some v =>
        obtain ⟨j, s, n, t⟩ := v
        simp only [buildIndex, hp2]
        exact ih _ ⟨l, hcase, hp⟩

theorem numTargets_mapAppend (m : TargetIndex) (k : Int × Int)
    (v : Int × String) :
    numTargets (mapAppend m k v) = numTargets m + 1 := by
  induction m with
  | nil => simp [mapAppend, numTargets]
  | cons e rest ih =>
    obtain ⟨k', vs⟩ := e
    by_cases hk : (k' == k) = true
    · simp [mapAppend, hk, numTargets]
      omega
    · simp only [mapAppend, hk, if_false, Bool.false_eq_true, numTargets,
        List.map_cons, List.sum_cons] at *
      omega

theorem buildIndex_some_of_all_parse :
    ∀ (lines : List String) (m : TargetIndex),
      (∀ line ∈ lines, (parseTargetLine line).isSome) →
      ∃ m', buildIndex lines m = some m' ∧
        numTargets m' = numTargets m + lines.length := by
  intro lines
  induction lines with
  | nil =>
    intro m _
    exact ⟨m, rfl, by simp⟩
  | cons hd tl ih =>
    intro m h
    have hh := h hd (List.mem_cons_self hd tl)
    cases hp : parseTargetLine hd with
    | none => rw [hp] at hh; cases hh
    | some v =>
      obtain ⟨j, s, n, t⟩ := v
      obtain ⟨m', hm', hcount⟩ :=
        ih (mapAppend m (j, s) (n, t))
          (fun l hl => h l (List.mem_cons_of_mem hd hl))
      refine ⟨m', by simp [buildIndex, hp, hm'], ?_⟩
      rw [hcount, numTargets_mapAppend]
      simp [List.length_cons]
      omega

/-- C6 counterexample.  The line `a<TAB>b<TAB>c<TAB>d<TAB>e` has exactly
five tab-separated fields, yet the builder fails (`int('a')` raises
`ValueError`): having five fields on every line does not suffice for the
index to be returned. -/
theorem targets_builder_five_fields_counterexample :
    (splitFields ("a\tb\tc\td\te").data).length = 5 ∧
    read_clang8_targets ["a\tb\tc\td\te"] = none := ⟨rfl, rfl⟩

/-- C6 (amended).  A targets file containing a line without exactly five
tab-separated fields makes the builder fail with no index returned; when
every line has exactly five fields and its first three fields parse as
integers, the builder returns the index together with a total entry count
equal to the sum of the per-key list lengths (which equals the number of
lines). -/
theorem targets_builder_failure_semantics (lines : List String) :
    ((∃ line ∈ lines, (splitFields line.data).length ≠ 5) →
      read_clang8_targets lines = none) ∧
    ((∀ line ∈ lines, (parseTargetLine line).isSome) →
      ∃ m, read_clang8_targets lines = some (m, numTargets m) ∧
        numTargets m = lines.length) := by
  constructor
  · rintro ⟨line, hmem, hbad⟩
    have hnone := buildIndex_none_of_bad_line lines []
      ⟨line, hmem, parseTargetLine_none_of_arity line hbad⟩
    simp [read_clang8_targets, hnone]
  · intro h
    obtain ⟨m, hm, hcount⟩ := buildIndex_some_of_all_parse lines [] h
    refine ⟨m, by simp [read_clang8_targets, hm], ?_⟩
    simpa [numTargets] using hcount

theorem targets_builder_failure_semantics_witness :
    read_clang8_targets ["1\t2"] = none ∧
    ∃ m, read_clang8_targets ["1\t2\t0\t-\tx"] = some (m, numTargets m) ∧
      numTargets m = 1 := by
  constructor
  · exact (targets_builder_failure_semantics ["1\t2"]).1
      ⟨"1\t2", by simp, by decide⟩
  · exact (targets_builder_failure_semantics ["1\t2\t0\t-\tx"]).2 (by decide)

/-- C2 counterexample.  With the raw-corpus line parsed as the JSON object
`{"journal_id":1,"sentence_id":2,"sources":["Hello wrold.","Next sentence."]}`
the run aborts with a `ValueError`: the destructuring iterates the dict's
three keys, fewer than the four items it requires — no output is written, in
particular not the expected line. -/
theorem scenario_object_row_crashes :
    pipeline_untokenized ["1\t2\t0\t-\tHello world."]
      [some (.obj [("journal_id", .num 1), ("sentence_id", .num 2),
        ("sources", .arr [.str "Hello wrold.", .str "Next sentence."])])] =
      .error .valueError ∧
    pipeline_untokenized ["1\t2\t0\t-\tHello world."]
      [some (.obj [("journal_id", .num 1), ("sentence_id", .num 2),
        ("sources", .arr [.str "Hello wrold.", .str "Next sentence."])])] ≠
      .ok "Hello wrold.\tHello world.\n" := by
  constructor
  · rfl
  · intro h
    exact Except.noConfusion h

/-- C2 amended.  When the single raw-corpus line parses to a JSON array whose
first two elements are the ids 1 and 2 and whose second-to-last element is
the sentence array `["Hello wrold.", "Next sentence."]`, and the targets
file is the single line `1<TAB>2<TAB>0<TAB>-<TAB>Hello world.`, the
untokenized pipeline writes exactly `Hello wrold.<TAB>Hello world.<NL>`. -/
theorem scenario_array_row_expected_output :
    pipeline_untokenized ["1\t2\t0\t-\tHello world."]
      [some (.arr [.num 1, .num 2,
        .arr [.str "Hello wrold.", .str "Next sentence."], .null])] =
      .ok "Hello wrold.\tHello world.\n" := rfl

theorem join_single_entry_reduction (jid sid : Int) (sentences : List Json)
    (n : Int) (t : String) (m : TargetIndex)
    (hget : alistGet m (jid, sid) = some [(n, t)]) :
    join_rows m [.arr [.num jid, .num sid, .arr sentences, .null]] =
      (match pyListIndex sentences n with
       | some src => .ok [(src, t)]
       | none => .error .indexError) := by
  have hunpack :
      unpackRawRow (.arr [.num jid, .num sid, .arr sentences, .null]) =
        .ok (.num jid, .num sid, .arr sentences) := rfl
  simp only [join_rows, emit_for_row, hunpack, except_bind_ok, pyIntOfJson,
    hget, Option.getD_some]
  cases hpl : pyListIndex sentences n with
  | none =>
    simp [emit_targets, pyGetItem, hpl, except_bind_error, except_bind_ok]
  | some src =>
    simp [emit_targets, pyGetItem, hpl, except_bind_ok, except_pure]

/-- C9.  Bounds behavior of the join: a matched target entry whose sentence
position is at least the record's sentence count makes the run abort with an
`IndexError` (the entry is not skipped), while a negative position whose
absolute value is at most the sentence count silently emits the sentence
counted from the end of the record's sentence list. -/
theorem join_bounds_semantics :
    (∀ (jid sid : Int) (sentences : List Json) (n : Int) (t : String)
        (m : TargetIndex),
      alistGet m (jid, sid) = some [(n, t)] →
      (sentences.length : Int) ≤ n →
      join_rows m [.arr [.num jid, .num sid, .arr sentences, .null]] =
        .error .indexError) ∧
    (∀ (jid sid : Int) (sentences : List Json) (n : Int) (t : String)
        (m : TargetIndex),
      alistGet m (jid, sid) = some [(n, t)] →
      n < 0 → n.natAbs ≤ sentences.length →
      join_rows m [.arr [.num jid, .num sid, .arr sentences, .null]] =
        .ok [((sentences[sentences.length - n.natAbs]?).getD .null, t)]) := by
  constructor
  · intro jid sid sentences n t m hget hlen
    rw [join_single_entry_reduction jid sid sentences n t m hget]
    have h0 : (0 : Int) ≤ n := by omega
    have hnone : sentences[n.toNat]? = none := by
      rw [List.getElem?_eq_none_iff]
      omega
    simp [pyListIndex, h0, hnone]
  · intro jid sid sentences n t m hget hneg habs
    rw [join_single_entry_reduction jid sid sentences n t m hget]
    have h0 : ¬ ((0 : Int) ≤ n) := by omega
    cases hsome : sentences[sentences.length - n.natAbs]? with
    | none =>
      rw [List.getElem?_eq_none_iff] at hsome
      omega
    | some src =>
      simp [pyListIndex, h0, habs, hsome]

theorem join_bounds_semantics_witness :
    join_rows [((1, 2), [(1, "t")])]
      [.arr [.num 1, .num 2, .arr [.str "s0"], .null]] =
      .error .indexError ∧
    join_rows [((1, 2), [(-1, "t")])]
      [.arr [.num 1, .num 2, .arr [.str "s0", .str "s1"], .null]] =
      .ok [(.str "s1", "t")] :=
  ⟨join_bounds_semantics.1 1 2 [.str "s0"] 1 "t" [((1, 2), [(1, "t")])]
      rfl (by decide),
   join_bounds_semantics.2 1 2 [.str "s0", .str "s1"] (-1) "t"
      [((1, 2), [(-1, "t")])] rfl (by decide) (by decide)⟩

/-- C10.  Duplicate-key multiplicity: the join never deduplicates raw
records — a row replicated k times has its matched target entries emitted
once per occurrence, k times in total; concretely, with one target entry
under key (1,2) and two raw-corpus lines carrying that key, two pairs are
emitted, strictly more than the one distinct matched entry and more than the
reported total target-entry count. -/
theorem duplicate_key_multiplicity :
    (∀ (m : TargetIndex) (row : Json) (ps : List (Json × String)) (k : Nat),
      emit_for_row m row = .ok ps →
      join_rows m (List.replicate k row) =
        .ok ((List.replicate k ps).flatten) ∧
      ((List.replicate k ps).flatten).length = k * ps.length) ∧
    (read_clang8_targets ["1\t2\t0\t-\tx"] =
      some ([((1, 2), [(0, "x")])], 1) ∧
     yield_clang8_source_target_pairs ["1\t2\t0\t-\tx"]
       [some (.arr [.num 1, .num 2, .arr [.str "s"], .null]),
        some (.arr [.num 1, .num 2, .arr [.str "s"], .null])] =
       .ok [(.str "s", "x"), (.str "s", "x")] ∧
     1 < 2) := by
  refine ⟨?_, rfl, rfl, by decide⟩
  intro m row ps k he
  constructor
  · induction k with
    | zero => rfl
    | succ k ih =>
      simp only [List.replicate_succ, join_rows, he, except_bind_ok, ih,
        except_pure, List.flatten_cons]
  · simp [List.length_flatten, List.map_replicate, List.sum_replicate,
      smul_eq_mul]

theorem duplicate_key_multiplicity_witness :
    join_rows [((1, 2), [(0, "x")])]
      (List.replicate 2 (.arr [.num 1, .num 2, .arr [.str "s"], .null])) =
      .ok ((List.replicate 2 [((Json.str "s"), "x")]).flatten) ∧
    ((List.replicate 2 [((Json.str "s"), "x")]).flatten).length =
      2 * [((Json.str "s"), "x")].length :=
  duplicate_key_multiplicity.1 [((1, 2), [(0, "x")])]
    (.arr [.num 1, .num 2, .arr [.str "s"], .null])
    [((Json.str "s"), "x")] 2 rfl

theorem alistGet_cons (k0 : Int × Int) (ts : List (Int × String))
    (rest : TargetIndex) (k : Int × Int) :
    alistGet ((k0, ts) :: rest) k =
      if k0 = k then some ts else alistGet rest k := by
  by_cases h : k0 = k
  · subst h
    simp [alistGet, List.find?_cons_of_pos]
  · have hb : ¬ ((((k0, ts) : (Int × Int) × List (Int × String)).1 == k) = true) := by
      simp [h]
    simp [alistGet, List.find?_cons_of_neg _ hb, h]

theorem alistGet_eq_none_of_not_mem (m : TargetIndex) (k : Int × Int)
    (h : k ∉ m.map (fun e => e.1)) : alistGet m k = none := by
  induction m with
  | nil => rfl
  | cons e rest ih =>
    obtain ⟨k0, ts⟩ := e
    simp only [List.map_cons, List.mem_cons] at h
    push_neg at h
    rw [alistGet_cons, if_neg (fun he => h.1 he.symm)]
    exact ih h.2

theorem mapAppend_keys (m : TargetIndex) (k : Int × Int) (v : Int × String) :
    (mapAppend m k v).map (fun e => e.1) =
      if k ∈ m.map (fun e => e.1) then m.map (fun e => e.1)
      else m.map (fun e => e.1) ++ [k] := by
  induction m with
  | nil => simp [mapAppend]
  | cons e rest ih =>
    obtain ⟨k0, ts⟩ := e
    by_cases hk : k0 = k
    · subst hk
      simp [mapAppend]
    · have hb : ¬ ((k0 == k) = true) := by simp [hk]
      have hk2 : ¬ (k = k0) := fun he => hk he.symm
      simp only [mapAppend, if_neg hb, List.map_cons, ih, List.mem_cons]
      by_cases hmem : k ∈ rest.map (fun e => e.1)
      · simp [hmem, hk2]
      · simp [hmem, hk2]

theorem mapAppend_nodup_keys (m : TargetIndex) (k : Int × Int)
    (v : Int × String) (h : (m.map (fun e => e.1)).Nodup) :
    ((mapAppend m k v).map (fun e => e.1)).Nodup := by
  rw [mapAppend_keys]
  by_cases hmem : k ∈ m.map (fun e => e.1)
  · simp [hmem, h]
  · simp [hmem, List.nodup_append, h]

theorem mapAppend_values_ne_nil (m : TargetIndex) (k : Int × Int)
    (v : Int × String) (h : ∀ e ∈ m, e.2 ≠ []) :
    ∀ e ∈ mapAppend m k v, e.2 ≠ [] := by
  induction m with
  | nil =>
    intro e he
    simp only [mapAppend, List.mem_singleton] at he
    subst he
    simp
  | cons e0 rest ih =>
    obtain ⟨k0, ts⟩ := e0
    intro e he
    by_cases hk : (k0 == k) = true
    · simp only [mapAppend, if_pos hk] at he
      rcases List.mem_cons.mp he with hcase | hcase
      · subst hcase; simp
      · exact h e (List.mem_cons_of_mem _ hcase)
    · simp only [mapAppend, if_neg hk] at he
      rcases List.mem_cons.mp he with hcase | hcase
      · subst hcase
        exact h (k0, ts) (List.mem_cons_self _ _)
      · exact ih (fun e' he' => h e' (List.mem_cons_of_mem _ he')) e hcase

theorem buildIndex_invariants :
    ∀ (lines : List String) (m0 m : TargetIndex),
      buildIndex lines m0 = some m →
      ((m0.map (fun e => e.1)).Nodup → (m.map (fun e => e.1)).Nodup) ∧
      ((∀ e ∈ m0, e.2 ≠ []) → ∀ e ∈ m, e.2 ≠ []) := by
  intro lines
  induction lines with
  | nil =>
    intro m0 m h
    cases h
    exact ⟨id, id⟩
  | cons hd tl ih =>
    intro m0 m h
    cases hp : parseTargetLine hd with
    | none => simp [buildIndex, hp] at h
    | some v =>
      obtain ⟨j, s, n, t⟩ := v
      simp only [buildIndex, hp] at h
      obtain ⟨h1, h2⟩ := ih _ m h
      exact ⟨fun hn => h1 (mapAppend_nodup_keys _ _ _ hn),
        fun hv => h2 (mapAppend_values_ne_nil _ _ _ hv)⟩

theorem sum_map_ite_key (k0 : Int × Int) (c : Nat) (f : Int × Int → Nat)
    (ks : List (Int × Int)) (hks : ks.Nodup) (hf : f k0 = 0) :
    (ks.map (fun k => if k0 = k then c else f k)).sum =
      (if k0 ∈ ks then c else 0) + (ks.map f).sum := by
  induction ks with
  | nil => simp
  | cons k ks' ih =>
    obtain ⟨hnotin, hnd⟩ := List.nodup_cons.mp hks
    by_cases hkk : k0 = k
    · subst hkk
      simp only [List.map_cons, List.sum_cons, if_pos rfl, ih hnd,
        if_neg hnotin, List.mem_cons, true_or, if_pos, hf]
    · simp only [List.map_cons, List.sum_cons, if_neg hkk, ih hnd,
        List.mem_cons]
      by_cases hmem : k0 ∈ ks'
      · simp [hmem, hkk]
        omega
      · simp [hmem, hkk]

theorem sum_lenAt_eq_matchedTargetCount (m : TargetIndex)
    (ks : List (Int × Int)) (hm : (m.map (fun e => e.1)).Nodup)
    (hks : ks.Nodup) :
    (ks.map (fun k => ((alistGet m k).getD []).length)).sum =
      matchedTargetCount m ks := by
  induction m with
  | nil => simp [alistGet, matchedTargetCount]
  | cons e rest ih =>
    obtain ⟨k0, ts⟩ := e
    simp only [List.map_cons, List.nodup_cons] at hm
    obtain ⟨hk0, hrest⟩ := hm
    have hstep : ∀ k ∈ ks, ((alistGet ((k0, ts) :: rest) k).getD []).length =
        if k0 = k then ts.length else ((alistGet rest k).getD []).length := by
      intro k _
      rw [alistGet_cons]
      by_cases h : k0 = k <;> simp [h]
    have hf0 : ((alistGet rest k0).getD []).length = 0 := by
      rw [alistGet_eq_none_of_not_mem rest k0 hk0]
      rfl
    rw [List.map_congr_left hstep,
      sum_map_ite_key k0 ts.length _ ks hks hf0, ih hrest]
    simp only [matchedTargetCount, List.filter_cons]
    by_cases hmem : k0 ∈ ks
    · have hc : (ks.contains ((k0, ts) :
          (Int × Int) × List (Int × String)).1) = true :=
        List.elem_iff.mpr hmem
      simp [hc, hmem]
    · have hc : ¬ ((ks.contains ((k0, ts) :
          (Int × Int) × List (Int × String)).1) = true) :=
        fun hcc => hmem (List.elem_iff.mp hcc)
      simp [hc, hmem]

theorem matchedTargetCount_le_numTargets (m : TargetIndex)
    (ks : List (Int × Int)) :
    matchedTargetCount m ks ≤ numTargets m := by
  induction m with
  | nil => simp [matchedTargetCount, numTargets]
  | cons e rest ih =>
    obtain ⟨k0, ts⟩ := e
    by_cases hc : (ks.contains k0) = true
    · simp only [matchedTargetCount, numTargets, List.filter_cons, hc,
        if_pos, List.map_cons, List.sum_cons] at *
      omega
    · simp only [matchedTargetCount, numTargets, List.filter_cons, hc,
        if_false, Bool.false_eq_true, List.map_cons, List.sum_cons] at *
      omega

theorem matchedTargetCount_eq_numTargets_iff (m : TargetIndex)
    (ks : List (Int × Int)) (hne : ∀ e ∈ m, e.2 ≠ []) :
    (matchedTargetCount m ks = numTargets m ↔
      ∀ k ∈ m.map (fun e => e.1), k ∈ ks) := by
  induction m with
  | nil => simp [matchedTargetCount, numTargets]
  | cons e rest ih =>
    obtain ⟨k0, ts⟩ := e
    have hts : ts ≠ [] := hne (k0, ts) (List.mem_cons_self _ _)
    have htslen : 0 < ts.length := List.length_pos.mpr hts
    have hrest := ih (fun e' he' => hne e' (List.mem_cons_of_mem _ he'))
    have hle := matchedTargetCount_le_numTargets rest ks
    by_cases hmem : k0 ∈ ks
    · have hc : (ks.contains k0) = true := List.elem_iff.mpr hmem
      simp only [matchedTargetCount, numTargets, List.filter_cons, hc,
        if_pos, List.map_cons, List.sum_cons, List.mem_cons]
      constructor
      · intro heq
        have : matchedTargetCount rest ks = numTargets rest := by
          simp only [matchedTargetCount, numTargets] at heq ⊢
          omega
        intro k hk
        rcases hk with hk | hk
        · subst hk; exact hmem
        · exact (hrest.mp this) k hk
      · intro hall
        have : matchedTargetCount rest ks = numTargets rest :=
          hrest.mpr (fun k hk => hall k (Or.inr hk))
        simp only [matchedTargetCount, numTargets] at this ⊢
        omega
    · have hc : ¬ ((ks.contains k0) = true) :=
        fun hcc => hmem (List.elem_iff.mp hcc)
      simp only [matchedTargetCount, numTargets, List.filter_cons, hc,
        if_false, Bool.false_eq_true, List.map_cons, List.sum_cons,
        List.mem_cons]
      constructor
      · intro heq
        exfalso
        simp only [matchedTargetCount, numTargets] at heq hle
        omega
      · intro hall
        exact absurd (hall k0 (Or.inl rfl)) hmem

theorem sum_rowMatches_eq_sum_rowKeys (m : TargetIndex) (rows : List Json)
    (h : ∀ row ∈ rows, (rowKey row).isSome) :
    (rows.map (fun row => (rowMatches m row).length)).sum =
      ((rowKeys rows).map (fun k => ((alistGet m k).getD []).length)).sum := by
  induction rows with
  | nil => rfl
  | cons row rest ih =>
    have h1 := h row (List.mem_cons_self _ _)
    cases hk : rowKey row with
    | none => rw [hk] at h1; cases h1
    | some k =>
      have ihr := ih (fun r hr => h r (List.mem_cons_of_mem _ hr))
      simp only [List.map_cons, List.sum_cons, rowMatches, hk, rowKeys,
        List.filterMap_cons] at ihr ⊢
      rw [ihr]

/-- C1 counterexample.  With one target entry (total target-entry count 1)
and a raw corpus in which the key (1,2) occurs on two lines, the join emits
two pairs: the emitted-pair count exceeds the total target-entry count, so
the claimed bound fails for this raw-record stream. -/
theorem join_completeness_counterexample :
    read_clang8_targets ["1\t2\t0\t-\tx"] =
      some ([((1, 2), [(0, "x")])], 1) ∧
    yield_clang8_source_target_pairs ["1\t2\t0\t-\tx"]
      [some (.arr [.num 1, .num 2, .arr [.str "s"], .null]),
       some (.arr [.num 1, .num 2, .arr [.str "sx"], .null])] =
      .ok [(.str "s", "x"), (.str "sx", "x")] ∧
    ¬ ([((Json.str "s"), "x"), ((Json.str "sx"), "x")].length ≤ 1) :=
  ⟨rfl, rfl, by decide⟩

/-- C1 (amended).  Join completeness for duplicate-free corpora: on a
successful run in which every (document_id, record_id) key occurs in at most
one successfully parsed raw record, the number of pairs emitted before
tokenization equals the number of target entries whose key occurs in the raw
corpus; this count is at most the total target-entry count reported by the
index builder, with equality exactly when every target key is present in the
raw corpus.  (Without the at-most-once hypothesis, entries are emitted once
per occurrence of their key and the count can exceed the total.) -/
theorem join_completeness (targetLines : List String)
    (rawLines : List (Option Json)) (ids_2_targets : TargetIndex)
    (total : Nat) (pairs : List (Json × String))
    (hread : read_clang8_targets targetLines = some (ids_2_targets, total))
    (hjoin : yield_clang8_source_target_pairs targetLines rawLines = .ok pairs)
    (hnodup : (rowKeys (yield_lang8_raw_dicts rawLines).1).Nodup) :
    pairs.length = matchedTargetCount ids_2_targets
        (rowKeys (yield_lang8_raw_dicts rawLines).1) ∧
    pairs.length ≤ total ∧
    (pairs.length = total ↔
      ∀ k ∈ ids_2_targets.map (fun e => e.1),
        k ∈ rowKeys (yield_lang8_raw_dicts rawLines).1) := by
  have hbuild : buildIndex targetLines [] = some ids_2_targets ∧
      numTargets ids_2_targets = total := by
    cases hb : buildIndex targetLines [] with
    | none => simp [read_clang8_targets, hb] at hread
    | some mb =>
      simp only [read_clang8_targets, hb, Option.map_some',
        Option.some.injEq, Prod.mk.injEq] at hread
      refine ⟨?_, ?_⟩
      · rw [hread.1]
      · rw [← hread.1]
        exact hread.2
  obtain ⟨hb, htot⟩ := hbuild
  obtain ⟨hinv1, hinv2⟩ := buildIndex_invariants targetLines [] ids_2_targets hb
  have hnodupIdx : (ids_2_targets.map (fun e => e.1)).Nodup := hinv1 (by simp)
  have hne : ∀ e ∈ ids_2_targets, e.2 ≠ [] := hinv2 (by simp)
  simp only [yield_clang8_source_target_pairs, hread] at hjoin
  obtain ⟨hdesc, hkeys⟩ :=
    join_rows_eq ids_2_targets (yield_lang8_raw_dicts rawLines).1 pairs hjoin
  have hlen : pairs.length = ((yield_lang8_raw_dicts rawLines).1.map
      (fun row => (rowMatches ids_2_targets row).length)).sum := by
    rw [hdesc, List.length_flatten, List.map_map]
    apply congrArg
    apply List.map_congr_left
    intro row _
    simp [Function.comp, List.length_map]
  have h1 : pairs.length = matchedTargetCount ids_2_targets
      (rowKeys (yield_lang8_raw_dicts rawLines).1) := by
    rw [hlen, sum_rowMatches_eq_sum_rowKeys _ _ hkeys,
      sum_lenAt_eq_matchedTargetCount _ _ hnodupIdx hnodup]
  refine ⟨h1, ?_, ?_⟩
  · rw [h1, ← htot]
    exact matchedTargetCount_le_numTargets _ _
  · rw [h1, ← htot]
    exact matchedTargetCount_eq_numTargets_iff _ _ hne

theorem join_completeness_witness :
    (1 = matchedTargetCount [((1, 2), [(0, "x")]), ((3, 4), [(0, "y")])]
      (rowKeys (yield_lang8_raw_dicts
        [some (.arr [.num 1, .num 2, .arr [.str "s"], .null])]).1)) ∧
    1 ≤ 2 ∧
    ((1 : Nat) = 2 ↔
      ∀ k ∈ ([((1, 2), [(0, "x")]), ((3, 4), [(0, "y")])] :
          TargetIndex).map (fun e => e.1),
        k ∈ rowKeys (yield_lang8_raw_dicts
          [some (.arr [.num 1, .num 2, .arr [.str "s"], .null])]).1) :=
  join_completeness ["1\t2\t0\t-\tx", "3\t4\t0\t-\ty"]
    [some (.arr [.num 1, .num 2, .arr [.str "s"], .null])]
    [((1, 2), [(0, "x")]), ((3, 4), [(0, "y")])] 2
    [((Json.str "s"), "x")] rfl rfl (by decide)

end Clang8
